import Mathlib

/-!
Verification of the LibSio single-word pointer-packing containers and the
cacheline-bounded open-addressing hash map, as a shallow embedding over Nat.

Machine words (size_t / intptr_t on the 64-bit target) are modelled as
natural numbers, with `% 2^64` applied exactly where the C++ value would be
truncated to 64 bits.  Bitwise operators of the source are kept as the
corresponding Nat bitwise operators.
-/

namespace LibSio

/-! ### PointerSized<A, size_a, B>  (src/PointerSized.hpp)

The container is one `size_t underlying`.  `fst_mask` is
`ProduceMask< size_a - 1 >::value`, i.e. bits `0 .. size_a-1` set, whose
closed form is `2^size_a - 1`.  `snd_mask` is
`ProduceMask< 63 >::value & ~fst_mask`, i.e. bits `size_a .. 63`, whose
closed form is `2^64 - 2^size_a`.  `reinterpret< size_t >` between the
64-bit types is the identity on the bit pattern. -/

/-- Mask of the low `sa` bits of the word (the C++ `fst_mask`). -/
def fst_mask (sa : Nat) : Nat := 2 ^ sa - 1

/-- Mask of bits `sa .. 63` of the word (the C++ `snd_mask`). -/
def snd_mask (sa : Nat) : Nat := 2 ^ 64 - 2 ^ sa

/-- The C++ `PointerSized::setFst`:
`underlying = (underlying & snd_mask) | reinterpret<size_t>(x)`.
Note the source does not mask `x` with `fst_mask`. -/
def psSetFst (sa w x : Nat) : Nat := (w &&& snd_mask sa) ||| (x % 2 ^ 64)

/-- The C++ `PointerSized::setSnd`:
`underlying = (underlying & fst_mask) | (reinterpret<size_t>(x) << size_a)`,
the shift overflowing modulo 2^64. -/
def psSetSnd (sa w x : Nat) : Nat := (w &&& fst_mask sa) ||| ((x <<< sa) % 2 ^ 64)

/-- The C++ `PointerSized::fst`: `underlying & fst_mask`. -/
def psFst (sa w : Nat) : Nat := w &&& fst_mask sa

/-- The C++ `PointerSized::snd`: `(underlying & snd_mask) >> size_a`. -/
def psSnd (sa w : Nat) : Nat := (w &&& snd_mask sa) >>> sa

/-! ### AlignedPointerContainer<T, inttype, 64>  (src/AlignedPointerContainer.hpp)

`align_bits = AlignmentBits<64>::value = 6`; the underlying word is a
`PointerSized< inttype, 6, intptr_t >`.  `setPtr` shifts the pointer right
by 6 as a signed `intptr_t` (an arithmetic shift), so the embedding models
that shift on the 64-bit two's-complement pattern explicitly. -/

/-- Arithmetic (sign-propagating) right shift by `s` of the 64-bit
two's-complement pattern `p`, returned again as a 64-bit pattern. -/
def asr64 (p s : Nat) : Nat :=
  if p < 2 ^ 63 then p >>> s else (p >>> s) + (2 ^ 64 - 2 ^ (64 - s))

/-- The C++ `AlignedPointerContainer::ptr`: `(T*)(underlying.snd() << align_bits)`. -/
def apcPtr (w : Nat) : Nat := ((psSnd 6 w) <<< 6) % 2 ^ 64

/-- The C++ `AlignedPointerContainer::num`: `underlying.fst()`. -/
def apcNum (w : Nat) : Nat := psFst 6 w

/-- The C++ `AlignedPointerContainer::setPtr`:
`underlying.setSnd(((intptr_t)x) >> align_bits)` (arithmetic shift);
the source asserts `((intptr_t)x & fst_mask) == 0`, i.e. 64-byte alignment. -/
def apcSetPtr (w p : Nat) : Nat := psSetSnd 6 w (asr64 (p % 2 ^ 64) 6)

/-- The C++ `AlignedPointerContainer::setNum`: `underlying.setFst(x)`. -/
def apcSetNum (w n : Nat) : Nat := psSetFst 6 w n

/-- Packing a pointer and a small integer into a default-constructed
container via `setPtr` then `setNum` (the order used by the hash map's
constructor is `setNum`/`setPtr`; both orders are covered by the round-trip
theorem below applied at an arbitrary initial word). -/
def apcPack (p n : Nat) : Nat := apcSetNum (apcSetPtr 0 p) n

/-! ### PointerMSBContainer<T>  (src/PointerMSBContainer.hpp)

Defaults: `intptr_type = u64`, `significant_bits = 48`, `inttype = u16`.
`bitmask = BitmaskConstructor< u64, 48 >::value` sets bits `0 .. 47`, with
closed form `2^48 - 1`; `~bitmask` is `2^64 - 2^48`. -/

/-- Mask of the 48 significant (canonical) address bits. -/
def msbBitmask : Nat := 2 ^ 48 - 1

/-- The C++ `PointerMSBContainer::num`:
`(inttype)((underlying & ~bitmask) >> significant_bits)`, the cast to the
16-bit integer taking the value modulo 2^16. -/
def msbNum (w : Nat) : Nat := ((w &&& (2 ^ 64 - 2 ^ 48)) >>> 48) % 2 ^ 16

/-- The C++ `PointerMSBContainer::setPtr`:
`underlying = ((intptr_type)x & bitmask) | (((intptr_type)num()) << significant_bits)`. -/
def msbSetPtr (w p : Nat) : Nat :=
  ((p % 2 ^ 64) &&& msbBitmask) ||| (((msbNum w) <<< 48) % 2 ^ 64)

/-- The C++ `PointerMSBContainer::setNum`:
`underlying = (underlying & bitmask) | (((intptr_type)x) << significant_bits)`. -/
def msbSetNum (w n : Nat) : Nat :=
  (w &&& msbBitmask) ||| (((n % 2 ^ 16) <<< 48) % 2 ^ 64)

/-- The C++ `PointerMSBContainer::pad_pointer_according_to_last_significant_bit`.
`lsbit_mask` is `1 << 47`; `high_or_low` is
`lsbit_mask & underlying >> (significant_bits - 1)`, which by C++ operator
precedence is `lsbit_mask & (underlying >> 47)`; `padding` is
`(~bitmask) * high_or_low` in u64 arithmetic. -/
def msbPad (w : Nat) : Nat :=
  let lsbit_mask : Nat := 2 ^ 47
  let high_or_low : Nat := lsbit_mask &&& (w >>> 47)
  let padding : Nat := ((2 ^ 64 - 2 ^ 48) * high_or_low) % 2 ^ 64
  let pointer : Nat := w &&& msbBitmask
  pointer ||| padding

/-- The C++ `PointerMSBContainer::ptr`: the padded pointer pattern. -/
def msbPtr (w : Nat) : Nat := msbPad w

/-! ### FatPointer<T>  (src/unnamed/part_002)

`FatPointer( T* x, size_t n )` initialises `underlying { x, n }`, i.e. the
`AlignedPointerContainer( T* x, inttype y )` constructor, whose member
initialiser is `underlying { y, (intptr_t) x }`: `PointerSized` then runs
`setFst(y)` followed by `setSnd((intptr_t)x)` on a zero word.  Note the raw
pointer is passed to `setSnd` without the `>> 6` pre-shift that `setPtr`
performs.  `msbcontainer()` casts `underlying.ptr()` to a
`PointerMSBContainer< T >`, modelled as reinterpreting that pointer's bit
pattern as the container's underlying word. -/

/-- Word built by the `FatPointer(T* x, size_t n)` constructor. -/
def fatMk (p n : Nat) : Nat := psSetSnd 6 (psSetFst 6 0 n) (p % 2 ^ 64)

/-- The C++ `FatPointer::msbcontainer` underlying word: `underlying.ptr()`. -/
def fatMsb (w : Nat) : Nat := apcPtr w

/-- The C++ `FatPointer::ptr`: `msbcontainer().ptr()`. -/
def fatPtr (w : Nat) : Nat := msbPtr (fatMsb w)

/-- The C++ `FatPointer::length`: `underlying.num() | (msbcontainer().num() << 6)`. -/
def fatLength (w : Nat) : Nat := apcNum w ||| ((msbNum (fatMsb w)) <<< 6)

/-- The C++ `FatPointer::size`: `length() * sizeof(T)`. -/
def fatSize (sT w : Nat) : Nat := fatLength w * sT

/-! ### Layout functions  (src/unnamed/part_001)

Pure byte-offset computations, parametrised by `sizeof(K)` (`sK`),
`alignof(V)` (`aV`), `sizeof(V)` (`sV`) and the capacity. -/

/-- The C++ `key_arr_len_in_bytes< K, V >( length )`:
`(length * sizeof(K)) + ((length * sizeof(K)) % alignof(V))`. -/
def key_arr_len_in_bytes (sK aV len : Nat) : Nat :=
  len * sK + (len * sK) % aV

/-- The C++ `overall_arr_len_in_bytes< K, V >( length )`:
`key_arr_len_in_bytes< K, V >( length ) + length * sizeof(V)`. -/
def overall_arr_len_in_bytes (sK aV sV len : Nat) : Nat :=
  key_arr_len_in_bytes sK aV len + len * sV

/-! ### HashMap< K, V, _hash, eq >  (src/HashMap.hpp)

The growable table, for a key type with value semantics and the standard
equality predicate.  Keys and values are modelled as naturals; `sizeof(K)`
is the parameter `sK` (the source requires `64 % sizeof(K) == 0`), and the
caller-supplied primary hash `_hash` is the parameter `ph`.  The backing
allocation (keys followed by values) is modelled as two lists of fixed
length; the 64-byte-aligned base address lets cacheline arithmetic on
addresses be expressed on slot indices (proved in the probe-bounds
theorems).  Destructor calls on these POD-modelled cells are no-ops. -/

/-- State of a `HashMap`: key array, value array, the packed
capacity-exponent (`length_power`) and the reserved empty key. -/
structure HMState where
  keys : List Nat
  vals : List Nat
  power : Nat
  emptyKey : Nat
deriving Repr, DecidableEq

/-- The multiplier of `hash_secondary` (derived from the golden section). -/
def hashMultiplier : Nat := 11400714819323198485

/-- The C++ `hash_secondary< K, _hash >`: `_hash(x) * hash_multiplier` in
`size_t` arithmetic. -/
def hashSecondary (ph : Nat → Nat) (k : Nat) : Nat :=
  (ph k * hashMultiplier) % 2 ^ 64

/-- The C++ `HashMap::length`: `1 << length_power()`. -/
def hmLength (st : HMState) : Nat := 2 ^ st.power

/-- The C++ `HashMap::probe_limit`: `(64 * 2) / sizeof(K)`. -/
def probe_limit (sK : Nat) : Nat := (64 * 2) / sK

/-- The C++ `HashMap::hash`: `hash_secondary< K, _hash >( k ) % length()`. -/
def hmHash (ph : Nat → Nat) (st : HMState) (k : Nat) : Nat :=
  hashSecondary ph k % hmLength st

/-- The C++ `HashMap::align_backwards_to_cacheline` on a byte address:
`(intptr_t)x & ~0b111111`, i.e. clearing the low 6 bits. -/
def alignBack64 (a : Nat) : Nat := a - a % 64

/-- Slot-index form of `align_backwards_to_cacheline( keys() + i )` for a
64-byte-aligned base and `sizeof(K)` dividing 64: the aligned address
corresponds to index `i - i % (64 / sizeof(K))` (the bridge to the address
computation is proved in the probe-bounds theorem). -/
def alignIdxBack (sK i : Nat) : Nat := i - i % (64 / sK)

/-- Distance helper of the source: `std::abs((ptrdiff_t)x - (ptrdiff_t)y)`
on slot indices. -/
def idxDist (x y : Nat) : Nat := if x ≤ y then y - x else x - y

/-- Scan loop of `HashMap::get_index_for_key`: walk from `i` up to `pe`,
stopping at the first empty slot, returning the index holding `k` if one is
reached first.  The first argument is structural fuel; every caller passes
at least `pe`, which bounds the number of loop iterations, so the fuel is
never exhausted. -/
def probeFind (keys : List Nat) (e k : Nat) : Nat → Nat → Nat → Option Nat
  | 0, _, _ => none
  | fuel + 1, i, pe =>
    if i < pe then
      if keys.getD i e = e then none
      else if keys.getD i e = k then some i
      else probeFind keys e k fuel (i + 1) pe
    else none

/-- The C++ `HashMap::get_index_for_key`: probe start is the cacheline
start of slot `hash(k)`, probe end is capped at the array end; the scan is
`probeFind`.  `no_index` is modelled as `none`. -/
def hmGetIndexForKey (sK : Nat) (ph : Nat → Nat) (st : HMState) (k : Nat) :
    Option Nat :=
  let hashed := hmHash ph st k
  let ps := alignIdxBack sK hashed
  let pe := if ps + probe_limit sK > hmLength st then hmLength st
            else ps + probe_limit sK
  probeFind st.keys st.emptyKey k pe ps pe

/-- The C++ `HashMap::get` (via `get_ref`): the value stored at the slot
found for `k`, if any. -/
def hmGet (sK : Nat) (ph : Nat → Nat) (st : HMState) (k : Nat) : Option Nat :=
  (hmGetIndexForKey sK ph st k).map (fun i => st.vals.getD i 0)

/-- Result of the scan loop of `HashMap::emplace`: the key was found, an
empty slot was found at `i`, or the loop ran to the probe end. -/
inductive ScanResult where
  | found : ScanResult
  | space : Nat → ScanResult
  | exhausted : ScanResult
deriving Repr, DecidableEq

/-- Scan loop of `HashMap::emplace`: identical walk to `probeFind`, but
distinguishing the three exit conditions.  Fuelled like `probeFind`. -/
def emplaceScan (keys : List Nat) (e k : Nat) : Nat → Nat → Nat → ScanResult
  | 0, _, _ => .exhausted
  | fuel + 1, i, pe =>
    if i < pe then
      if keys.getD i e = e then .space i
      else if keys.getD i e = k then .found
      else emplaceScan keys e k fuel (i + 1) pe
    else .exhausted

/-- Probe phase of `HashMap::emplace`: the window is computed exactly as in
`get_index_for_key`, then scanned with `emplaceScan`. -/
def emplaceProbe (sK : Nat) (ph : Nat → Nat) (st : HMState) (k : Nat) :
    ScanResult :=
  let hashed := hmHash ph st k
  let ps := alignIdxBack sK hashed
  let pe := if ps + probe_limit sK > hmLength st then hmLength st
            else ps + probe_limit sK
  emplaceScan st.keys st.emptyKey k pe ps pe

/-- The C++ `HashMap::kill_cell`: destroy the cell (a no-op on the POD
model) and re-construct the key slot with the empty key. -/
def killCell (st : HMState) (i : Nat) : HMState :=
  { st with keys := st.keys.set i st.emptyKey }

/-- Candidate-search loop of `HashMap::reshuffle`: starting at `start + 1`,
walk to `pe` while slots are non-empty, and return the first index `i`
satisfying the source's move condition
`keys() + start >= align_backwards_to_cacheline(keys() + hash_curr)
 && dist_i > dist_start && eq(keys() + i, &empty_key)`.
The last conjunct requires slot `i` to hold the empty key even though the
loop guard requires it not to. -/
def reshuffleScan (sK : Nat) (ph : Nat → Nat) (st : HMState)
    (start : Nat) : Nat → Nat → Nat → Option Nat
  | 0, _, _ => none
  | fuel + 1, i, pe =>
    if i < pe then
      if st.keys.getD i st.emptyKey = st.emptyKey then none
      else
        let hash_curr := hmHash ph st (st.keys.getD i st.emptyKey)
        let dist_i := idxDist i hash_curr
        let dist_start := idxDist start hash_curr
        if alignIdxBack sK hash_curr ≤ start ∧ dist_start < dist_i ∧
           st.keys.getD i st.emptyKey = st.emptyKey then
          some i
        else reshuffleScan sK ph st start fuel (i + 1) pe
    else none

/-- The C++ `HashMap::reshuffle`, fuelled (the source recursion restarts at
a strictly larger index below the array length, so a fuel of the array
length is sufficient).  The move block copies the key and value of the
vacated `start` slot into `i`, then re-fills `i` with the empty key, and
recurses at `i`. -/
def reshuffleFuel (sK : Nat) (ph : Nat → Nat) :
    Nat → HMState → Nat → HMState
  | 0, st, _ => st
  | fuel + 1, st, start =>
    if st.keys.getD start st.emptyKey ≠ st.emptyKey then st
    else
      let pe := if start + probe_limit sK < hmLength st
                then start + probe_limit sK else hmLength st
      match reshuffleScan sK ph st start pe (start + 1) pe with
      | none => st
      | some i =>
        let keys1 := st.keys.set i (st.keys.getD start st.emptyKey)
        let vals1 := st.vals.set i (st.vals.getD start 0)
        let keys2 := keys1.set i st.emptyKey
        reshuffleFuel sK ph fuel { st with keys := keys2, vals := vals1 } i

/-- The C++ `HashMap::increase_length_power`: the source runs
`underlying.setNum( underlying.num() * 2 )`, i.e. it multiplies the packed
capacity exponent itself by two (the commented-out previous version
incremented it). -/
def increaseLengthPower (st : HMState) : HMState :=
  { st with power := st.power * 2 }

/-- Body of the C++ `HashMap::double_size`, abstracted over the `insert`
used to rehome entries (the source's `foreach_lambda` reinsertion calls
`insert`, i.e. `emplace`): keep the old arrays, apply
`increase_length_power`, allocate fresh arrays of the new length with
every key slot filled by the empty key, then re-insert every non-empty
cell of the old table in slot order. -/
def doubleSizeWith (ins : HMState → Nat → Nat → Bool × HMState)
    (st : HMState) : HMState :=
  let oldLen := hmLength st
  let newPower := (increaseLengthPower st).power
  let newLen := 2 ^ newPower
  let fresh : HMState :=
    { keys := List.replicate newLen st.emptyKey
    , vals := List.replicate newLen 0
    , power := newPower
    , emptyKey := st.emptyKey }
  (List.range oldLen).foldl
    (fun acc i =>
      if st.keys.getD i st.emptyKey = st.emptyKey then acc
      else (ins acc (st.keys.getD i st.emptyKey) (st.vals.getD i 0)).2)
    fresh

/-- The C++ `HashMap::emplace` (and `insert`, which forwards to it),
fuelled to account for the growth-and-retry recursion: reject the empty
key, scan the probe window, report `found` as a no-op failure, fill an
empty slot on success, and on an exhausted window grow via `double_size`
and retry. -/
def emplaceFuel (sK : Nat) (ph : Nat → Nat) :
    Nat → HMState → Nat → Nat → Bool × HMState
  | 0, st, _, _ => (false, st)
  | fuel + 1, st, k, v =>
    if st.emptyKey = k then (false, st)
    else
      match emplaceProbe sK ph st k with
      | .found => (false, st)
      | .space i =>
        (true, { st with keys := st.keys.set i k, vals := st.vals.set i v })
      | .exhausted =>
        emplaceFuel sK ph fuel
          (doubleSizeWith (fun st2 k2 v2 => emplaceFuel sK ph fuel st2 k2 v2) st)
          k v

/-- The C++ `HashMap::double_size` with the reinsertion done by
`emplaceFuel` at the given fuel, exactly as the exhausted branch of
`emplaceFuel` invokes it. -/
def doubleSizeFuel (sK : Nat) (ph : Nat → Nat) (fuel : Nat) (st : HMState) :
    HMState :=
  doubleSizeWith (fun st2 k2 v2 => emplaceFuel sK ph fuel st2 k2 v2) st

/-- The C++ `HashMap::rm`: locate the slot for `k`; if present, kill the
cell and reshuffle from it. -/
def hmRm (sK : Nat) (ph : Nat → Nat) (st : HMState) (k : Nat) : HMState :=
  match hmGetIndexForKey sK ph st k with
  | none => st
  | some i => reshuffleFuel sK ph (hmLength st + 1) (killCell st i) i

/-- The C++ `HashMap::insert`: `emplace( k, v )`, with fuel ample for the
scenarios considered here. -/
def hmInsert (sK : Nat) (ph : Nat → Nat) (st : HMState) (k v : Nat) :
    Bool × HMState :=
  emplaceFuel sK ph 8 st k v

/-- The C++ `HashMap::HashMap( K _empty_key )`: `length_power` is the
`initial_length` 7, the key array is filled with the empty key, and the
value array is uninitialised (modelled as zeros). -/
def mkHashMap (emptyKey : Nat) : HMState :=
  { keys := List.replicate (2 ^ 7) emptyKey
  , vals := List.replicate (2 ^ 7) 0
  , power := 7
  , emptyKey := emptyKey }

/-! ### Concrete scenarios

Instantiations used to evaluate the code at explicit inputs.  The template
parameters are legitimate caller choices: a constant-zero primary hash (the
secondary hash exists precisely to compensate for bad primary hashes), the
identity primary hash (the stated common case for integer keys), and key
sizes 8 and 64 bytes (both satisfy the source's `64 % sizeof(K) == 0`
constraint, giving probe limits 16 and 2). -/

/-- Constant-zero primary hash. -/
def phZero : Nat → Nat := fun _ => 0

/-- Identity primary hash. -/
def phId : Nat → Nat := fun k => k

/-- Scenario for deletion: with `sizeof(K) = 8` and the constant-zero
primary hash every key probes from slot 0; on a fresh table with empty key
0, insert keys 1, 2, 3 (landing in slots 0, 1, 2). -/
def delSt1 : HMState := (hmInsert 8 phZero (mkHashMap 0) 1 1).2

/-- Second insertion of the deletion scenario. -/
def delSt2 : HMState := (hmInsert 8 phZero delSt1 2 2).2

/-- Third insertion of the deletion scenario. -/
def delSt3 : HMState := (hmInsert 8 phZero delSt2 3 3).2

/-- The deletion scenario after `rm(2)`: slot 1 is vacated and the
reshuffle pass leaves key 3 stranded behind the empty slot. -/
def delSt4 : HMState := hmRm 8 phZero delSt3 2

/-- Growth scenario: a table of capacity `2^2` holding keys 2 and 3 in
slots 1 and 2 (their probe slots under the identity primary hash, since
the secondary hash is odd), with `sizeof(K) = 64` so the probe limit is 2.
Emplacing key 5 (probe slot 1) exhausts the window `[1, 3)` and triggers
`double_size`. -/
def growSmall : HMState :=
  { keys := [0, 2, 3, 0]
  , vals := [0, 20, 30, 0]
  , power := 2
  , emptyKey := 0 }

/-- The growth scenario after emplacing key 5 with value 50. -/
def growRun : Bool × HMState := emplaceFuel 64 phId 2 growSmall 5 50

/-! ## Bit-level helper lemmas -/

/-- Masking with a block of ones in bits `b .. b+a-1` extracts those bits:
the arithmetic reading of the mask operations used by the containers. -/
theorem and_mid_mask (w a b : Nat) :
    w &&& ((2 ^ a - 1) <<< b) = ((w >>> b) % 2 ^ a) <<< b := by
  apply Nat.eq_of_testBit_eq
  intro i
  simp only [Nat.testBit_and, Nat.testBit_shiftLeft, Nat.testBit_mod_two_pow,
    Nat.testBit_shiftRight, Nat.testBit_two_pow_sub_one]
  by_cases h1 : b ≤ i
  · have h2 : b + (i - b) = i := by omega
    rw [h2]
    by_cases h3 : i - b < a <;>
      simp [h1, h3, ge_iff_le, Bool.and_comm, Bool.and_left_comm]
  · simp [ge_iff_le, h1]

/-- Bitwise or of values occupying disjoint bit ranges is addition. -/
theorem or_eq_add_of_lt (k a b : Nat) (ha : a % 2 ^ k = 0) (hb : b < 2 ^ k) :
    a ||| b = a + b := by
  have hd : 2 ^ k * (a / 2 ^ k) = a :=
    Nat.mul_div_cancel' (Nat.dvd_of_mod_eq_zero ha)
  calc a ||| b = 2 ^ k * (a / 2 ^ k) ||| b := by rw [hd]
    _ = 2 ^ k * (a / 2 ^ k) + b := (Nat.mul_add_lt_is_or hb _).symm
    _ = a + b := by rw [hd]

/-- Conjunction with a single high power of two vanishes below it. -/
theorem and_two_pow_of_lt (x k : Nat) (h : x < 2 ^ k) : 2 ^ k &&& x = 0 := by
  apply Nat.eq_of_testBit_eq
  intro i
  simp only [Nat.testBit_and, Nat.zero_testBit, Nat.testBit_two_pow]
  by_cases hik : k = i
  · subst hik
    simp [Nat.testBit_lt_two_pow h]
  · simp [hik]

/-- The mask `snd_mask 6` written as a shifted block of ones. -/
theorem snd_mask_six : snd_mask 6 = (2 ^ 58 - 1) <<< 6 := by decide

/-- The mask `~bitmask` of the MSB container written as a shifted block. -/
theorem hi48_mask : (2 : Nat) ^ 64 - 2 ^ 48 = (2 ^ 16 - 1) <<< 48 := by decide

/-- The low mask of the `PointerSized` specialisation is mod 64. -/
theorem and_fst_mask_six (w : Nat) : w &&& fst_mask 6 = w % 64 := by
  have h : fst_mask 6 = 2 ^ 6 - 1 := rfl
  rw [h, Nat.and_pow_two_sub_one_eq_mod]

/-- The high mask of the `PointerSized` specialisation extracts bits 6–63. -/
theorem and_snd_mask_six (w : Nat) :
    w &&& snd_mask 6 = ((w >>> 6) % 2 ^ 58) <<< 6 := by
  rw [snd_mask_six, and_mid_mask]

/-- The high mask of the MSB container extracts bits 48–63. -/
theorem and_hi48 (w : Nat) :
    w &&& (2 ^ 64 - 2 ^ 48) = ((w >>> 48) % 2 ^ 16) <<< 48 := by
  rw [hi48_mask, and_mid_mask]

/-! ## AlignedPointerContainer lemmas -/

/-- Arithmetic shift right then left by 6 restores a 64-byte-aligned
64-bit pattern, in both the low and the high (sign-extending) half. -/
theorem asr64_shiftLeft (p : Nat) (hp : p < 2 ^ 64) (ha : p % 64 = 0) :
    ((asr64 p 6) <<< 6) % 2 ^ 64 = p := by
  have hd : p / 2 ^ 6 * 2 ^ 6 = p :=
    Nat.div_mul_cancel (Nat.dvd_of_mod_eq_zero (by omega))
  unfold asr64
  by_cases h : p < 2 ^ 63
  · rw [if_pos h, Nat.shiftRight_eq_div_pow, Nat.shiftLeft_eq, hd,
      Nat.mod_eq_of_lt hp]
  · rw [if_neg h, Nat.shiftLeft_eq, Nat.add_mul, Nat.shiftRight_eq_div_pow, hd]
    have h2 : ((2 : Nat) ^ 64 - 2 ^ (64 - 6)) * 2 ^ 6 = 2 ^ 64 * 63 := by norm_num
    rw [h2, Nat.add_mul_mod_self_left, Nat.mod_eq_of_lt hp]

/-- Effect of `setPtr` on the container word: the stored pattern is the
aligned pointer with the integer field (the low six bits) preserved. -/
theorem apcSetPtr_eq (w p : Nat) (hp : p < 2 ^ 64) (ha : p % 64 = 0) :
    apcSetPtr w p = p + w % 64 := by
  unfold apcSetPtr psSetSnd
  rw [Nat.mod_eq_of_lt hp, asr64_shiftLeft p hp ha, and_fst_mask_six,
    Nat.or_comm]
  exact or_eq_add_of_lt 6 p (w % 64) (by omega) (by omega)

/-- Effect of `setNum` on a word holding an aligned pointer plus a small
residue: the residue is replaced by the new integer. -/
theorem apcSetNum_eq (p r n : Nat) (hp : p < 2 ^ 64) (ha : p % 64 = 0)
    (hr : r < 64) (hn : n < 64) : apcSetNum (p + r) n = p + n := by
  unfold apcSetNum psSetFst
  rw [and_snd_mask_six]
  have h1 : (p + r) >>> 6 = p / 64 := by
    rw [Nat.shiftRight_eq_div_pow]
    omega
  have h2 : p / 64 % 2 ^ 58 = p / 64 := Nat.mod_eq_of_lt (by omega)
  have h3 : (p / 64) <<< 6 = p := by
    rw [Nat.shiftLeft_eq]
    omega
  rw [h1, h2, h3, Nat.mod_eq_of_lt (show n < 2 ^ 64 by omega)]
  exact or_eq_add_of_lt 6 p n (by omega) (by omega)

/-- Reading `num` from a word holding an aligned pointer plus a small
integer yields the integer. -/
theorem apcNum_eq (p n : Nat) (ha : p % 64 = 0) (hn : n < 64) :
    apcNum (p + n) = n := by
  unfold apcNum psFst
  rw [and_fst_mask_six]
  omega

/-- Reading `ptr` from a word holding an aligned pointer plus a small
integer yields the pointer. -/
theorem apcPtr_eq (p n : Nat) (hp : p < 2 ^ 64) (ha : p % 64 = 0)
    (hn : n < 64) : apcPtr (p + n) = p := by
  unfold apcPtr psSnd
  rw [and_snd_mask_six]
  have h1 : (p + n) >>> 6 = p / 64 := by
    rw [Nat.shiftRight_eq_div_pow]
    omega
  have h2 : p / 64 % 2 ^ 58 = p / 64 := Nat.mod_eq_of_lt (by omega)
  have h3 : (p / 64) <<< 6 = p := by
    rw [Nat.shiftLeft_eq]
    omega
  have h4 : ((p / 64) <<< 6) >>> 6 = p / 64 := by
    rw [Nat.shiftLeft_eq, Nat.shiftRight_eq_div_pow]
    omega
  rw [h1, h2, h4, h3, Nat.mod_eq_of_lt hp]

/-- C5: for every 64-byte-aligned pointer value and every integer
representable in the freed six low bits, packing the pair into the
single-word container and reading it back returns the pointer and the
integer unchanged. -/
theorem c5_pack_round_trip (p n : Nat) (hp : p < 2 ^ 64) (ha : p % 64 = 0)
    (hn : n < 64) : apcPtr (apcPack p n) = p ∧ apcNum (apcPack p n) = n := by
  have h0 : apcPack p n = p + n := by
    unfold apcPack
    rw [apcSetPtr_eq 0 p hp ha]
    norm_num
    have h1 := apcSetNum_eq p 0 n hp ha (by omega) hn
    simpa using h1
  rw [h0]
  exact ⟨apcPtr_eq p n hp ha hn, apcNum_eq p n ha hn⟩

/-- Witness for C5 at the concrete input `p = 128`, `n = 5`. -/
theorem c5_pack_round_trip_witness :
    apcPtr (apcPack 128 5) = 128 ∧ apcNum (apcPack 128 5) = 5 :=
  c5_pack_round_trip 128 5 (by decide) (by decide) (by decide)

/-! ## PointerMSBContainer lemmas -/

/-- Normal form of `psSnd` at width 6: the word's bits 6–63. -/
theorem psSnd_six (w : Nat) : psSnd 6 w = (w >>> 6) % 2 ^ 58 := by
  unfold psSnd
  rw [and_snd_mask_six, Nat.shiftLeft_eq, Nat.shiftRight_eq_div_pow]
  omega

/-- Normal form of `msbNum`: the word's bits 48–63. -/
theorem msbNum_norm (w : Nat) : msbNum w = (w >>> 48) % 2 ^ 16 := by
  unfold msbNum
  rw [and_hi48, Nat.shiftLeft_eq]
  rw [show ((w >>> 48) % 2 ^ 16 * 2 ^ 48) >>> 48 = (w >>> 48) % 2 ^ 16 by
    rw [Nat.shiftRight_eq_div_pow]; omega]
  omega

/-- On genuine 64-bit words the padding branch of `pad_pointer...` is dead:
by C++ precedence `lsbit_mask & underlying >> 47` tests bit 94 of the word,
which a 64-bit value never has, so `ptr` returns the zero-extended low 48
bits. -/
theorem msbPad_of_lt (w : Nat) (hw : w < 2 ^ 64) : msbPad w = w % 2 ^ 48 := by
  have h1 : w >>> 47 < 2 ^ 47 := by
    rw [Nat.shiftRight_eq_div_pow]
    omega
  show (w &&& msbBitmask) |||
      ((2 ^ 64 - 2 ^ 48) * (2 ^ 47 &&& (w >>> 47))) % 2 ^ 64 = w % 2 ^ 48
  rw [and_two_pow_of_lt _ _ h1, Nat.mul_zero, Nat.zero_mod, Nat.or_zero]
  rw [show msbBitmask = 2 ^ 48 - 1 from rfl, Nat.and_pow_two_sub_one_eq_mod]

/-- C8: setting the pointer field leaves the packed integer unchanged and
setting the integer field leaves the pointer unchanged, in both the
alignment-based container (any well-aligned pointer, any integer below 64)
and the canonical-address container (any 64-bit word, any 16-bit integer). -/
theorem c8_frame (w p n w2 p2 n2 : Nat) (hw : w < 2 ^ 64) (hp : p < 2 ^ 64)
    (hpa : p % 64 = 0) (hn : n < 64) (hw2 : w2 < 2 ^ 64) (hp2 : p2 < 2 ^ 64)
    (hn2 : n2 < 2 ^ 16) :
    apcNum (apcSetPtr w p) = apcNum w ∧
    apcPtr (apcSetNum w n) = apcPtr w ∧
    msbNum (msbSetPtr w2 p2) = msbNum w2 ∧
    msbPtr (msbSetNum w2 n2) = msbPtr w2 := by
  refine ⟨?_, ?_, ?_, ?_⟩
  · rw [apcSetPtr_eq w p hp hpa, apcNum_eq p (w % 64) hpa (by omega)]
    unfold apcNum psFst
    rw [and_fst_mask_six]
  · have hy : psSnd 6 (apcSetNum w n) = psSnd 6 w := by
      unfold apcSetNum psSetFst
      rw [and_snd_mask_six, psSnd_six, psSnd_six]
      rw [Nat.mod_eq_of_lt (show n < 2 ^ 64 by omega), Nat.shiftLeft_eq]
      rw [or_eq_add_of_lt 6 ((w >>> 6) % 2 ^ 58 * 2 ^ 6) n
        (Nat.mul_mod_left _ _) (by omega)]
      rw [Nat.shiftRight_eq_div_pow, Nat.shiftRight_eq_div_pow]
      omega
    unfold apcPtr
    rw [hy]
  · set m := msbNum w2 with hm_def
    have hm : m < 2 ^ 16 := by
      rw [hm_def, msbNum_norm]
      omega
    unfold msbSetPtr
    rw [← hm_def, Nat.mod_eq_of_lt hp2]
    rw [show msbBitmask = 2 ^ 48 - 1 from rfl, Nat.and_pow_two_sub_one_eq_mod]
    rw [Nat.shiftLeft_eq, Nat.mod_eq_of_lt (show m * 2 ^ 48 < 2 ^ 64 by omega)]
    rw [Nat.or_comm, or_eq_add_of_lt 48 (m * 2 ^ 48) (p2 % 2 ^ 48)
      (Nat.mul_mod_left _ _) (by omega)]
    rw [msbNum_norm, Nat.shiftRight_eq_div_pow]
    omega
  · have hd : ((n2 % 2 ^ 16) <<< 48) % 2 ^ 64 = n2 * 2 ^ 48 := by
      rw [Nat.shiftLeft_eq, Nat.mod_eq_of_lt hn2,
        Nat.mod_eq_of_lt (by omega)]
    have hlt : msbSetNum w2 n2 < 2 ^ 64 := by
      unfold msbSetNum
      exact Nat.or_lt_two_pow
        (Nat.and_lt_two_pow w2 (show msbBitmask < 2 ^ 64 by decide))
        (Nat.mod_lt _ (by omega))
    unfold msbPtr
    rw [msbPad_of_lt _ hlt, msbPad_of_lt _ hw2]
    unfold msbSetNum
    rw [hd, show msbBitmask = 2 ^ 48 - 1 from rfl,
      Nat.and_pow_two_sub_one_eq_mod]
    rw [Nat.or_comm, or_eq_add_of_lt 48 (n2 * 2 ^ 48) (w2 % 2 ^ 48)
      (Nat.mul_mod_left _ _) (by omega)]
    omega

/-- Witness for C8 at the concrete inputs `w = 7`, `p = 128`, `n = 5`,
`w2 = 2^63 + 3`, `p2 = 2^47 + 64`, `n2 = 9`. -/
theorem c8_frame_witness :
    apcNum (apcSetPtr 7 128) = apcNum 7 ∧
    apcPtr (apcSetNum 7 5) = apcPtr 7 ∧
    msbNum (msbSetPtr (2 ^ 63 + 3) (2 ^ 47 + 64)) = msbNum (2 ^ 63 + 3) ∧
    msbPtr (msbSetNum (2 ^ 63 + 3) 9) = msbPtr (2 ^ 63 + 3) :=
  c8_frame 7 128 5 (2 ^ 63 + 3) (2 ^ 47 + 64) 9 (by decide) (by decide)
    (by decide) (by decide) (by decide) (by decide) (by decide)

/-! ## Layout, fat pointer and table theorems -/

/-- C4 (code bug): the padding formula `len*sizeof(K) + (len*sizeof(K) %
alignof(V))` does not round up to a multiple of the alignment.  At capacity
1 with `sizeof(K) = 1` and `alignof(V) = 4` the value-array offset is 2,
which is not 4-byte aligned (the aligned offset would be 4). -/
theorem c4_value_offset_misaligned :
    key_arr_len_in_bytes 1 4 1 = 2 ∧
    ¬ (4 ∣ key_arr_len_in_bytes 1 4 1) ∧
    overall_arr_len_in_bytes 1 4 4 1 = 6 := by decide

/-- C6 (code bug): the `FatPointer` constructor stores the raw pointer
without the pre-shift that `setPtr` performs, so reading the packed word
back does not return the inputs.  For the 64-byte-aligned pointer 64 with
count 1, `ptr()` returns 4096 (the pointer shifted left by 6, truncated to
48 bits) instead of 64; for count 64 the count reads back as 0. -/
theorem c6_fat_pointer_not_round_trip :
    fatPtr (fatMk 64 1) = 4096 ∧
    (4096 : Nat) ≠ 64 ∧
    fatLength (fatMk 64 1) = 1 ∧
    fatLength (fatMk 64 64) = 0 ∧
    fatSize 8 (fatMk 64 64) = 0 := by decide

/-- C7: emplacing (and hence inserting) the table's empty-sentinel key
fails with `false` and returns the table state completely unchanged, for
every table state, value and fuel. -/
theorem c7_sentinel_insert_rejected (sK : Nat) (ph : Nat → Nat) (fuel : Nat)
    (st : HMState) (v : Nat) :
    emplaceFuel sK ph fuel st st.emptyKey v = (false, st) := by
  cases fuel with
  | zero => rfl
  | succ fuel => simp [emplaceFuel]

/-- C2 (code bug): growth does not double the capacity.
`increase_length_power` doubles the packed exponent itself, so the fresh
initial table (capacity `2^7 = 128`) moves to capacity `2^14 = 16384`
rather than 256, and a 4-slot table whose probe window is exhausted by an
emplace grows to 16 slots rather than 8. -/
theorem c2_growth_squares_capacity :
    hmLength (mkHashMap 0) = 128 ∧
    hmLength (increaseLengthPower (mkHashMap 0)) = 16384 ∧
    hmLength growSmall = 4 ∧
    emplaceProbe 64 phId growSmall 5 = .exhausted ∧
    growRun.1 = true ∧
    hmLength growRun.2 = 16 ∧
    (16384 : Nat) ≠ 256 ∧ (16 : Nat) ≠ 8 := by decide

/-- C1 (code bug): the probe-bound invariant is not preserved by removal.
In the deletion scenario the keys 1, 2, 3 are inserted successfully and
only key 2 is removed, yet the subsequent lookup of key 3 fails: the
reshuffle pass never moves any entry (its candidate condition requires a
slot that is simultaneously non-empty and empty), so key 3 stays stranded
behind the vacated slot and the probe scan stops at the empty slot before
reaching it. -/
theorem c1_probe_bound_not_invariant :
    (hmInsert 8 phZero (mkHashMap 0) 1 1).1 = true ∧
    (hmInsert 8 phZero delSt1 2 2).1 = true ∧
    (hmInsert 8 phZero delSt2 3 3).1 = true ∧
    hmGetIndexForKey 8 phZero delSt4 3 = none ∧
    hmGet 8 phZero delSt4 3 = none := by decide

/-- C3 (code bug): after `insert(1,1); insert(2,2); insert(3,3); rm(2)`
with all three keys probing from slot 0, `get(2)` is absent and
`get(1) = 1` as the claim states, and inserting the fresh key 4 into the
same probe window succeeds, but `get(3)` returns nothing instead of 3. -/
theorem c3_deletion_loses_key :
    hmGet 8 phZero delSt4 2 = none ∧
    hmGet 8 phZero delSt4 1 = some 1 ∧
    (hmInsert 8 phZero delSt4 4 4).1 = true ∧
    hmGet 8 phZero delSt4 3 = none ∧
    hmGet 8 phZero delSt3 3 = some 3 := by decide

/-- Inversion for the lookup scan: a returned index lies in the scanned
range and holds the sought key, which is not the empty key. -/
theorem probeFind_eq_some (keys : List Nat) (e k : Nat) :
    ∀ fuel i pe j, probeFind keys e k fuel i pe = some j →
      i ≤ j ∧ j < pe ∧ keys.getD j e = k ∧ keys.getD j e ≠ e := by
  intro fuel
  induction fuel with
  | zero =>
    intro i pe j h
    simp [probeFind] at h
  | succ fuel ih =>
    intro i pe j h
    rw [probeFind] at h
    by_cases h1 : i < pe
    · rw [if_pos h1] at h
      by_cases h2 : keys.getD i e = e
      · rw [if_pos h2] at h
        exact absurd h (by simp)
      · rw [if_neg h2] at h
        by_cases h3 : keys.getD i e = k
        · rw [if_pos h3] at h
          have hij : i = j := by injection h
          subst hij
          exact ⟨Nat.le_refl _, h1, h3, h2⟩
        · rw [if_neg h3] at h
          obtain ⟨h4, h5, h6, h7⟩ := ih (i + 1) pe j h
          exact ⟨by omega, h5, h6, h7⟩
    · rw [if_neg h1] at h
      exact absurd h (by simp)

/-- Inversion for the insertion scan: a returned free slot lies in the
scanned range and holds the empty key. -/
theorem emplaceScan_eq_space (keys : List Nat) (e k : Nat) :
    ∀ fuel i pe j, emplaceScan keys e k fuel i pe = .space j →
      i ≤ j ∧ j < pe ∧ keys.getD j e = e := by
  intro fuel
  induction fuel with
  | zero =>
    intro i pe j h
    simp [emplaceScan] at h
  | succ fuel ih =>
    intro i pe j h
    rw [emplaceScan] at h
    by_cases h1 : i < pe
    · rw [if_pos h1] at h
      by_cases h2 : keys.getD i e = e
      · rw [if_pos h2] at h
        have hij : i = j := by injection h
        subst hij
        exact ⟨Nat.le_refl _, h1, h2⟩
      · rw [if_neg h2] at h
        by_cases h3 : keys.getD i e = k
        · rw [if_pos h3] at h
          exact absurd h (by simp)
        · rw [if_neg h3] at h
          obtain ⟨h4, h5, h6⟩ := ih (i + 1) pe j h
          exact ⟨by omega, h5, h6⟩
    · rw [if_neg h1] at h
      exact absurd h (by simp)

/-- C9: removing a key that is not present in the table — in particular
the empty-sentinel key itself — changes nothing: every key slot, every
value slot and the capacity are untouched. -/
theorem c9_rm_absent_key_noop (sK : Nat) (ph : Nat → Nat) (st : HMState)
    (k : Nat)
    (h : k = st.emptyKey ∨
      ∀ i, i < st.keys.length → st.keys.getD i st.emptyKey ≠ k) :
    hmRm sK ph st k = st := by
  have hnone : hmGetIndexForKey sK ph st k = none := by
    cases hidx : hmGetIndexForKey sK ph st k with
    | none => rfl
    | some j =>
      exfalso
      unfold hmGetIndexForKey at hidx
      obtain ⟨h4, h5, h6, h7⟩ := probeFind_eq_some _ _ _ _ _ _ _ hidx
      cases h with
      | inl he => exact h7 (he ▸ h6)
      | inr hall =>
        by_cases hj : j < st.keys.length
        · exact hall j hj h6
        · rw [List.getD_eq_default _ _ (by omega)] at h7
          exact h7 rfl
  unfold hmRm
  rw [hnone]

set_option maxRecDepth 4000 in
/-- Witness for C9: removing the absent key 5 from a fresh table with
empty key 0 returns the table unchanged. -/
theorem c9_rm_absent_key_noop_witness :
    hmRm 8 phZero (mkHashMap 0) 5 = mkHashMap 0 :=
  c9_rm_absent_key_noop 8 phZero (mkHashMap 0) 5 (Or.inr (by decide))

/-- C10: for a 64-byte-aligned backing array and a key size dividing 64,
the cacheline-aligned probe start is never below the array base (its
address is exactly the base plus the aligned slot index times the key
size, and that index is at most the hashed slot, which is below the
capacity), and both the lookup scan and the scan phase of emplace only
deliver indices below the capacity because the probe end is clipped to the
array end. -/
theorem c10_probe_stays_in_bounds (base sK : Nat) (ph : Nat → Nat)
    (st : HMState) (k : Nat) (hb : base % 64 = 0) (hk : 64 % sK = 0)
    (hs : 0 < sK) :
    base ≤ alignBack64 (base + hmHash ph st k * sK) ∧
    alignBack64 (base + hmHash ph st k * sK)
      = base + alignIdxBack sK (hmHash ph st k) * sK ∧
    alignIdxBack sK (hmHash ph st k) ≤ hmHash ph st k ∧
    hmHash ph st k < hmLength st ∧
    (∀ j, hmGetIndexForKey sK ph st k = some j →
      alignIdxBack sK (hmHash ph st k) ≤ j ∧ j < hmLength st) ∧
    (∀ j, emplaceProbe sK ph st k = ScanResult.space j →
      alignIdxBack sK (hmHash ph st k) ≤ j ∧ j < hmLength st) := by
  set h := hmHash ph st k with hh_def
  set c := 64 / sK with hc_def
  have hcs : c * sK = 64 := Nat.div_mul_cancel (Nat.dvd_of_mod_eq_zero hk)
  have h1 : (base + h * sK) % 64 = (h * sK) % 64 := by omega
  have h2 : (h * sK) % 64 = (h % c) * sK := by
    rw [← hcs, Nat.mul_mod_mul_right]
  have h3 : (h % c) * sK ≤ h * sK :=
    Nat.mul_le_mul_right _ (Nat.mod_le _ _)
  have h4 : (h - h % c) * sK = h * sK - (h % c) * sK := Nat.sub_mul _ _ _
  have hbridge : alignBack64 (base + h * sK)
      = base + alignIdxBack sK h * sK := by
    unfold alignBack64 alignIdxBack
    rw [h1, h2, ← hc_def, h4]
    omega
  have hps : alignIdxBack sK h ≤ h := Nat.sub_le _ _
  have hlen : h < hmLength st := by
    rw [hh_def]
    unfold hmHash
    exact Nat.mod_lt _ (Nat.two_pow_pos st.power)
  have hpe : (if alignIdxBack sK h + probe_limit sK > hmLength st
      then hmLength st else alignIdxBack sK h + probe_limit sK)
      ≤ hmLength st := by
    split
    · exact Nat.le_refl _
    · omega
  refine ⟨?_, hbridge, hps, hlen, ?_, ?_⟩
  · rw [hbridge]
    exact Nat.le_add_right _ _
  · intro j hj
    simp only [hmGetIndexForKey, ← hh_def] at hj
    obtain ⟨hj1, hj2, hj3, hj4⟩ := probeFind_eq_some _ _ _ _ _ _ _ hj
    exact ⟨hj1, by omega⟩
  · intro j hj
    simp only [emplaceProbe, ← hh_def] at hj
    obtain ⟨hj1, hj2, hj3⟩ := emplaceScan_eq_space _ _ _ _ _ _ _ hj
    exact ⟨hj1, by omega⟩

/-- Witness for C10 at base 128, key size 8, the constant-zero primary
hash, the fresh table with empty key 0, and key 3. -/
theorem c10_probe_stays_in_bounds_witness :
    128 ≤ alignBack64 (128 + hmHash phZero (mkHashMap 0) 3 * 8) ∧
    alignBack64 (128 + hmHash phZero (mkHashMap 0) 3 * 8)
      = 128 + alignIdxBack 8 (hmHash phZero (mkHashMap 0) 3) * 8 ∧
    alignIdxBack 8 (hmHash phZero (mkHashMap 0) 3)
      ≤ hmHash phZero (mkHashMap 0) 3 ∧
    hmHash phZero (mkHashMap 0) 3 < hmLength (mkHashMap 0) ∧
    (∀ j, hmGetIndexForKey 8 phZero (mkHashMap 0) 3 = some j →
      alignIdxBack 8 (hmHash phZero (mkHashMap 0) 3) ≤ j ∧
      j < hmLength (mkHashMap 0)) ∧
    (∀ j, emplaceProbe 8 phZero (mkHashMap 0) 3 = ScanResult.space j →
      alignIdxBack 8 (hmHash phZero (mkHashMap 0) 3) ≤ j ∧
      j < hmLength (mkHashMap 0)) :=
  c10_probe_stays_in_bounds 128 8 phZero (mkHashMap 0) 3 (by decide)
    (by decide) (by decide)

end LibSio
